import Mathlib

/-
Verification development for the UVCamera component (src/components/UVCamera.tsx,
with an earlier variant of the same component kept as an unnamed source file).
The component composites a live camera frame into a 1080x1920 canvas: the frame is
drawn scaled into the top half, copied to the bottom half, the top half is
color-inverted, and a branding overlay image is drawn on the split line.  A
MediaRecorder records the canvas stream at 30 fps together with the camera audio
tracks; stopping transcodes the WebM recording to MP4 with a WebM fallback, and
the result can be previewed, downloaded or shared.

Numeric canvas geometry is modelled over the rationals (JavaScript numbers are
treated as exact arithmetic on the decimal literals appearing in the source).
Pixel data (Uint8ClampedArray contents) is modelled as lists of natural numbers,
each entry between 0 and 255.  Browser-internal behaviour (the resampling
performed by drawImage, the encoder, the DOM) is abstracted by function
parameters; everything the component itself computes is translated directly.
-/

namespace UVCam

/-- An RGBA pixel as stored in canvas ImageData. -/
structure Pixel where
  r : Nat
  g : Nat
  b : Nat
  a : Nat
deriving DecidableEq, Repr

/-- The UV inversion loop of processFrame (STEP 4): walk the RGBA byte array
four bytes at a time and replace each of the three color bytes v by 255 - v,
leaving the fourth (alpha) byte alone.  Trailing fragments shorter than four
bytes (impossible for real ImageData, whose length is a multiple of 4) have
their available color bytes inverted, matching what the JavaScript loop does. -/
def invertUV : List Nat → List Nat
  | r :: g :: b :: a :: rest => (255 - r) :: (255 - g) :: (255 - b) :: a :: invertUV rest
  | [r, g, b] => [255 - r, 255 - g, 255 - b]
  | [r, g] => [255 - r, 255 - g]
  | [r] => [255 - r]
  | [] => []

/-- invertUV preserves the length of the byte array. -/
theorem invertUV_length (d : List Nat) : (invertUV d).length = d.length := by
  induction d using invertUV.induct <;> simp [invertUV, *]

/-- Pointwise description of invertUV: alpha bytes (index 3 mod 4) are kept,
all other bytes v become 255 - v. -/
theorem invertUV_getD (d : List Nat) (i : Nat) (h : i < d.length) :
    (invertUV d).getD i 0 = if i % 4 = 3 then d.getD i 0 else 255 - d.getD i 0 := by
  induction d using invertUV.induct generalizing i with
  | case1 r g b a rest ih =>
    rcases i with _ | _ | _ | _ | i
    · simp [invertUV]
    · simp [invertUV]
    · simp [invertUV]
    · simp [invertUV]
    · have hi : i < rest.length := by simpa [Nat.succ_lt_succ_iff] using h
      have h4 : (i + 4) % 4 = i % 4 := Nat.add_mod_right i 4
      simpa [invertUV, List.getD, h4] using ih i hi
  | case2 r g b =>
    rcases i with _ | _ | _ | i
    · simp [invertUV]
    · simp [invertUV]
    · simp [invertUV]
    · simp only [List.length_cons, List.length_nil] at h; omega
  | case3 r g =>
    rcases i with _ | _ | i
    · simp [invertUV]
    · simp [invertUV]
    · simp only [List.length_cons, List.length_nil] at h; omega
  | case4 r =>
    rcases i with _ | i
    · simp [invertUV]
    · simp only [List.length_cons, List.length_nil] at h; omega
  | case5 => simp at h

/-- Applying invertUV twice restores a byte array whose entries are valid
bytes (at most 255). -/
theorem invertUV_invertUV (d : List Nat) (hd : ∀ v ∈ d, v ≤ 255) :
    invertUV (invertUV d) = d := by
  induction d using invertUV.induct with
  | case1 r g b a rest ih =>
    have hr : r ≤ 255 := hd r (by simp)
    have hg : g ≤ 255 := hd g (by simp)
    have hb : b ≤ 255 := hd b (by simp)
    have hrest : invertUV (invertUV rest) = rest :=
      ih (fun v hv => hd v (by simp [hv]))
    simp [invertUV, hrest]
    omega
  | case2 r g b =>
    have hr : r ≤ 255 := hd r (by simp)
    have hg : g ≤ 255 := hd g (by simp)
    have hb : b ≤ 255 := hd b (by simp)
    simp [invertUV]
    omega
  | case3 r g =>
    have hr : r ≤ 255 := hd r (by simp)
    have hg : g ≤ 255 := hd g (by simp)
    simp [invertUV]
    omega
  | case4 r =>
    have hr : r ≤ 255 := hd r (by simp)
    simp [invertUV]
    omega
  | case5 => simp [invertUV]

/-- A single application of invertUV leaves every byte at an index congruent
to 3 mod 4 (the alpha channel) unchanged. -/
theorem invertUV_alpha (d : List Nat) (i : Nat) (hi : i % 4 = 3) :
    (invertUV d).getD i 0 = d.getD i 0 := by
  by_cases h : i < d.length
  · rw [invertUV_getD d i h, if_pos hi]
  · push_neg at h
    rw [List.getD_eq_default _ _ (by rw [invertUV_length]; exact h),
      List.getD_eq_default _ _ h]

/-- C2: the inversion filter applied to the top half replaces, for every
pixel, each of the red, green and blue channel bytes v (an integer in 0..255)
by 255 - v, stepping through the RGBA pixel array four bytes at a time: the
output array has the same length, every byte at index 3 mod 4 is kept, and
every other byte v becomes 255 - v. -/
theorem uv_invert_filter_pointwise (d : List Nat) (i : Nat) (h : i < d.length) :
    (invertUV d).length = d.length ∧
    (invertUV d).getD i 0 =
      (if i % 4 = 3 then d.getD i 0 else 255 - d.getD i 0) :=
  ⟨invertUV_length d, invertUV_getD d i h⟩

/-- Witness for C2 on the concrete byte array [10, 20, 30, 40, 50, 60, 70, 80]
at index 5 (a green channel byte). -/
theorem uv_invert_filter_pointwise_witness :
    5 < ([10, 20, 30, 40, 50, 60, 70, 80] : List Nat).length ∧
    (invertUV [10, 20, 30, 40, 50, 60, 70, 80]).length = 8 ∧
    (invertUV [10, 20, 30, 40, 50, 60, 70, 80]).getD 5 0 =
      (if 5 % 4 = 3 then ([10, 20, 30, 40, 50, 60, 70, 80] : List Nat).getD 5 0
       else 255 - ([10, 20, 30, 40, 50, 60, 70, 80] : List Nat).getD 5 0) :=
  ⟨by decide,
   ((uv_invert_filter_pointwise [10, 20, 30, 40, 50, 60, 70, 80] 5
      (by decide)).1).trans (by decide),
   (uv_invert_filter_pointwise [10, 20, 30, 40, 50, 60, 70, 80] 5 (by decide)).2⟩

/-- C9: the top-half inversion filter is an involution and touches only the
color channels: applying it twice to any byte array of valid bytes restores
the array, and a single application leaves every alpha byte (index 3 mod 4)
unchanged. -/
theorem uv_invert_involution_alpha (d : List Nat) (hd : ∀ v ∈ d, v ≤ 255) :
    invertUV (invertUV d) = d ∧
    ∀ i, i % 4 = 3 → (invertUV d).getD i 0 = d.getD i 0 :=
  ⟨invertUV_invertUV d hd, fun i hi => invertUV_alpha d i hi⟩

/-- Witness for C9 on the concrete RGBA quadruple [1, 2, 3, 4]. -/
theorem uv_invert_involution_alpha_witness :
    (∀ v ∈ ([1, 2, 3, 4] : List Nat), v ≤ 255) ∧
    invertUV (invertUV [1, 2, 3, 4]) = [1, 2, 3, 4] ∧
    (invertUV [1, 2, 3, 4]).getD 3 0 = ([1, 2, 3, 4] : List Nat).getD 3 0 :=
  ⟨by decide,
   (uv_invert_involution_alpha [1, 2, 3, 4] (by decide)).1,
   (uv_invert_involution_alpha [1, 2, 3, 4] (by decide)).2 3 (by decide)⟩

/-- The fixed story width of the output canvas (STORY_WIDTH in processFrame). -/
def STORY_WIDTH : Nat := 1080

/-- The fixed story height of the output canvas (STORY_HEIGHT in processFrame). -/
def STORY_HEIGHT : Nat := 1920

/-- Half the story height; the split line between the two halves. -/
def halfHeight : Nat := STORY_HEIGHT / 2

/-- The destination rectangle passed to drawImage. -/
structure DrawRect where
  x : ℚ
  y : ℚ
  w : ℚ
  h : ℚ
deriving DecidableEq, Repr

/-- The drawWidth/drawHeight/drawX/drawY computation of processFrame for a
camera frame of size vw x vh: fit the frame into the 1080 x 960 top half
keeping its aspect ratio, cropping the sides when the video is wider than the
target and cropping top and bottom otherwise.  JavaScript number arithmetic is
modelled as exact rational arithmetic. -/
def computeDrawRect (vw vh : ℚ) : DrawRect :=
  let videoAspect := vw / vh
  let targetAspect := (STORY_WIDTH : ℚ) / (halfHeight : ℚ)
  if videoAspect > targetAspect then
    { h := (halfHeight : ℚ)
      w := (halfHeight : ℚ) * videoAspect
      x := ((STORY_WIDTH : ℚ) - (halfHeight : ℚ) * videoAspect) / 2
      y := 0 }
  else
    { w := (STORY_WIDTH : ℚ)
      h := (STORY_WIDTH : ℚ) / videoAspect
      x := 0
      y := ((halfHeight : ℚ) - (STORY_WIDTH : ℚ) / videoAspect) / 2 }

/-- C10: for every camera frame with positive dimensions, the draw rectangle
computed for the top half of the 1080x1920 canvas covers the whole
1080x960 half: its width is at least 1080 and its height at least 960, it is
centered on the overflowing axis exactly as the claim states, and it covers
the half (left edge at most 0, right edge at least 1080, top edge at most 0,
bottom edge at least 960), so no black background remains visible there. -/
theorem drawRect_covers_top_half (vw vh : ℚ) (hw : 0 < vw) (hh : 0 < vh) :
    (STORY_WIDTH : ℚ) ≤ (computeDrawRect vw vh).w ∧
    ((halfHeight : ℚ)) ≤ (computeDrawRect vw vh).h ∧
    (vw / vh > (STORY_WIDTH : ℚ) / (halfHeight : ℚ) →
      (computeDrawRect vw vh).x = ((STORY_WIDTH : ℚ) - (computeDrawRect vw vh).w) / 2 ∧
      (computeDrawRect vw vh).y = 0) ∧
    (¬ vw / vh > (STORY_WIDTH : ℚ) / (halfHeight : ℚ) →
      (computeDrawRect vw vh).x = 0 ∧
      (computeDrawRect vw vh).y = ((halfHeight : ℚ) - (computeDrawRect vw vh).h) / 2) ∧
    (computeDrawRect vw vh).x ≤ 0 ∧
    (STORY_WIDTH : ℚ) ≤ (computeDrawRect vw vh).x + (computeDrawRect vw vh).w ∧
    (computeDrawRect vw vh).y ≤ 0 ∧
    ((halfHeight : ℚ)) ≤ (computeDrawRect vw vh).y + (computeDrawRect vw vh).h := by
  have ha : 0 < vw / vh := div_pos hw hh
  unfold computeDrawRect
  simp only [STORY_WIDTH, halfHeight, STORY_HEIGHT]
  norm_num
  split_ifs with hc
  · have hwide : (1080 : ℚ) ≤ 960 * (vw / vh) := by linarith
    refine ⟨hwide, le_refl _, fun _ => ⟨rfl, rfl⟩,
      fun hcon => absurd hc (not_lt.mpr hcon), by linarith, by linarith,
      le_refl _, by norm_num⟩
  · push_neg at hc
    have htall : (960 : ℚ) ≤ 1080 / (vw / vh) := by
      rw [le_div_iff₀ ha]
      linarith
    refine ⟨le_refl _, htall, fun hcon => absurd hcon (not_lt.mpr hc),
      fun _ => ⟨rfl, rfl⟩, le_refl _, by norm_num, by linarith, by linarith⟩

/-- Witness for C10 at the concrete camera frame size 1080 x 1920 (a frame
taller than the 1080 x 960 target). -/
theorem drawRect_covers_top_half_witness :
    (0 : ℚ) < 1080 ∧ (0 : ℚ) < 1920 ∧
    (STORY_WIDTH : ℚ) ≤ (computeDrawRect 1080 1920).w ∧
    ((halfHeight : ℚ)) ≤ (computeDrawRect 1080 1920).h :=
  ⟨by norm_num, by norm_num,
   (drawRect_covers_top_half 1080 1920 (by norm_num) (by norm_num)).1,
   (drawRect_covers_top_half 1080 1920 (by norm_num) (by norm_num)).2.1⟩

/-- The canvas pixel grid: a color for every integer coordinate.  Only the
coordinates 0 <= x < STORY_WIDTH and 0 <= y < STORY_HEIGHT are meaningful. -/
def Canvas : Type := Nat → Nat → Pixel

/-- The opaque black the canvas is cleared to (fillStyle #000000). -/
def blackPixel : Pixel := ⟨0, 0, 0, 255⟩

/-- Whether canvas point (px, py) lies inside the destination rectangle of the
drawImage call for a vw x vh camera frame.  When facingMode is user the
context is mirrored (translate STORY_WIDTH, scale -1 1) before drawImage, but
because drawX centers the rectangle horizontally, the mirrored destination
region is the same set of points; only the sampling is flipped. -/
def inDrawRect (vw vh : ℚ) (px py : Nat) : Bool :=
  let r := computeDrawRect vw vh
  decide (r.x ≤ (px : ℚ) ∧ (px : ℚ) < r.x + r.w ∧ r.y ≤ (py : ℚ) ∧ (py : ℚ) < r.y + r.h)

/-- Canvas state after the clear to black and STEP 1 of processFrame: the
camera frame is drawn clipped to the top half, inside the computed draw
rectangle.  The color drawImage produces at each covered canvas point is
abstracted by the function video (browser resampling, and the horizontal
mirroring of the source when facingMode is user, are folded into it); every
other point keeps the black of the fillRect. -/
def afterStep1 (vw vh : ℚ) (video : Nat → Nat → Pixel) : Canvas :=
  fun x y =>
    if x < STORY_WIDTH ∧ y < halfHeight ∧ inDrawRect vw vh x y = true then video x y
    else blackPixel

/-- STEPs 2 and 3 of processFrame: getImageData of the top half followed by
putImageData at (0, halfHeight) writes a copy of the top half into the bottom
half and leaves everything else unchanged. -/
def copyTopToBottom (c : Canvas) : Canvas :=
  fun x y =>
    if halfHeight ≤ y ∧ y < halfHeight + halfHeight ∧ x < STORY_WIDTH then
      c x (y - halfHeight)
    else c x y

/-- The per-pixel effect of the STEP 4 inversion loop: invert the three color
channels, keep alpha. -/
def invertPixel (p : Pixel) : Pixel := ⟨255 - p.r, 255 - p.g, 255 - p.b, p.a⟩

/-- STEP 4 of processFrame at the canvas level: getImageData of the top half,
the inversion loop, and putImageData back at the origin invert every pixel of
the top half and leave the rest unchanged. -/
def invertTopHalf (c : Canvas) : Canvas :=
  fun x y =>
    if y < halfHeight ∧ x < STORY_WIDTH then invertPixel (c x y)
    else c x y

/-- One full processFrame composite: clear, draw the camera frame into the top
half, copy the top half to the bottom half, invert the top half, then (when
the branding image has loaded) paint the overlay on its support region.  The
set of points the overlay pass changes and the colors it produces there are
abstracted by overlayRegion and overlayPix. -/
def compositeFrame (vw vh : ℚ) (video : Nat → Nat → Pixel) (imgLoaded : Bool)
    (overlayRegion : Nat → Nat → Bool) (overlayPix : Nat → Nat → Pixel) : Canvas :=
  let c := invertTopHalf (copyTopToBottom (afterStep1 vw vh video))
  fun x y =>
    if imgLoaded = true ∧ overlayRegion x y = true then overlayPix x y
    else c x y

/-- The STEP 4 loop acting on the serialized bytes of one pixel agrees with
invertPixel: coherence between the byte-array model and the canvas model. -/
theorem invertUV_serialized (p : Pixel) :
    invertUV [p.r, p.g, p.b, p.a] =
      [(invertPixel p).r, (invertPixel p).g, (invertPixel p).b, (invertPixel p).a] := by
  simp [invertUV, invertPixel]

/-- C1: for every composited frame, at every canvas point not touched by the
overlay pass, the bottom half holds exactly the unmodified camera image that
STEP 1 painted into the top half, and the top half holds the same image with
its color channels inverted: the frame is drawn once into the top half,
copied verbatim to the bottom half, and only then is the inversion applied to
the top half. -/
theorem composite_top_inverted_bottom_plain (vw vh : ℚ) (video : Nat → Nat → Pixel)
    (imgLoaded : Bool) (overlayRegion : Nat → Nat → Bool)
    (overlayPix : Nat → Nat → Pixel) (x y : Nat)
    (hx : x < STORY_WIDTH) (hy : y < halfHeight)
    (hov : imgLoaded = false ∨
      (overlayRegion x y = false ∧ overlayRegion x (y + halfHeight) = false)) :
    compositeFrame vw vh video imgLoaded overlayRegion overlayPix x (y + halfHeight) =
      afterStep1 vw vh video x y ∧
    compositeFrame vw vh video imgLoaded overlayRegion overlayPix x y =
      invertPixel (afterStep1 vw vh video x y) := by
  have hov1 : ¬(imgLoaded = true ∧ overlayRegion x y = true) := by
    rcases hov with h | ⟨h1, _⟩
    · simp [h]
    · simp [h1]
  have hov2 : ¬(imgLoaded = true ∧ overlayRegion x (y + halfHeight) = true) := by
    rcases hov with h | ⟨_, h2⟩
    · simp [h]
    · simp [h2]
  constructor
  · rw [compositeFrame]
    simp only [if_neg hov2]
    rw [invertTopHalf]
    have hnotop : ¬(y + halfHeight < halfHeight ∧ x < STORY_WIDTH) := by omega
    simp only [if_neg hnotop]
    rw [copyTopToBottom]
    have hbot : halfHeight ≤ y + halfHeight ∧ y + halfHeight < halfHeight + halfHeight ∧
        x < STORY_WIDTH := by omega
    simp only [if_pos hbot]
    have hsub : y + halfHeight - halfHeight = y := by omega
    rw [hsub]
  · rw [compositeFrame]
    simp only [if_neg hov1]
    rw [invertTopHalf]
    simp only [if_pos (And.intro hy hx)]
    rw [copyTopToBottom]
    have hnobot : ¬(halfHeight ≤ y ∧ y < halfHeight + halfHeight ∧ x < STORY_WIDTH) := by
      simp only [halfHeight, STORY_HEIGHT] at hy ⊢
      omega
    simp only [if_neg hnobot]

/-- Witness for C1 at a portrait 1080 x 1920 frame, a constant video color,
no overlay, and the canvas point (0, 0) paired with (0, 960). -/
theorem composite_top_inverted_bottom_plain_witness :
    0 < STORY_WIDTH ∧ 0 < halfHeight ∧
    compositeFrame 1080 1920 (fun _ _ => ⟨10, 20, 30, 255⟩) false
        (fun _ _ => false) (fun _ _ => blackPixel) 0 (0 + halfHeight) =
      afterStep1 1080 1920 (fun _ _ => ⟨10, 20, 30, 255⟩) 0 0 ∧
    compositeFrame 1080 1920 (fun _ _ => ⟨10, 20, 30, 255⟩) false
        (fun _ _ => false) (fun _ _ => blackPixel) 0 0 =
      invertPixel (afterStep1 1080 1920 (fun _ _ => ⟨10, 20, 30, 255⟩) 0 0) :=
  ⟨by decide, by decide,
   (composite_top_inverted_bottom_plain 1080 1920 (fun _ _ => ⟨10, 20, 30, 255⟩)
      false (fun _ _ => false) (fun _ _ => blackPixel) 0 0 (by decide) (by decide)
      (Or.inl rfl)).1,
   (composite_top_inverted_bottom_plain 1080 1920 (fun _ _ => ⟨10, 20, 30, 255⟩)
      false (fun _ _ => false) (fun _ _ => blackPixel) 0 0 (by decide) (by decide)
      (Or.inl rfl)).2⟩

/-- The camera facing mode, user (front) or environment (rear). -/
inductive Facing
  | user
  | environment
deriving DecidableEq, Repr

/-- The individual operations of the processFrame pipeline. -/
inductive FrameStep
  | clearCanvas
  | clipTopHalf
  | mirror
  | drawScaled
  | copyBottom
  | invert
  | overlay
deriving DecidableEq, Repr

/-- The sequence of pipeline operations one processFrame invocation performs,
read directly off the code: the whole body is guarded by the readyState test
against HAVE_ENOUGH_DATA, the clear and the clip always happen, the mirroring
transform is applied only when facingMode is user, the scaled drawImage, the
copy to the bottom half and the inversion always happen, and the overlay is
drawn only when productImageRef holds a loaded image. -/
def frameSteps (ready : Bool) (facing : Facing) (imgLoaded : Bool) : List FrameStep :=
  if ready = true then
    [FrameStep.clearCanvas, FrameStep.clipTopHalf] ++
    (if facing = Facing.user then [FrameStep.mirror] else []) ++
    [FrameStep.drawScaled, FrameStep.copyBottom, FrameStep.invert] ++
    (if imgLoaded = true then [FrameStep.overlay] else [])
  else []

/-- Counterexample to C3 as stated: a processed frame with the rear
(environment) camera and the branding image not yet loaded performs neither
the horizontal mirroring nor the overlay drawing, so not every frame performs
all five named steps. -/
theorem frameSteps_missing_steps_environment :
    FrameStep.mirror ∉ frameSteps true Facing.environment false ∧
    FrameStep.overlay ∉ frameSteps true Facing.environment false := by decide

/-- C3 amended: every processed frame performs scaling, half-height clipping
and pixel inversion; horizontal mirroring is performed exactly when the camera
faces the user, and overlay drawing exactly when the branding image has
loaded. -/
theorem frameSteps_pipeline (facing : Facing) (imgLoaded : Bool) :
    FrameStep.drawScaled ∈ frameSteps true facing imgLoaded ∧
    FrameStep.clipTopHalf ∈ frameSteps true facing imgLoaded ∧
    FrameStep.invert ∈ frameSteps true facing imgLoaded ∧
    (FrameStep.mirror ∈ frameSteps true facing imgLoaded ↔ facing = Facing.user) ∧
    (FrameStep.overlay ∈ frameSteps true facing imgLoaded ↔ imgLoaded = true) := by
  cases facing <;> cases imgLoaded <;> decide

/-- Height of the branding overlay: 18 percent of the story height
(STORY_HEIGHT * 0.18 in processFrame). -/
def productHeight : ℚ := (STORY_HEIGHT : ℚ) * 0.18

/-- Width of the branding overlay: the height scaled by the natural aspect
ratio of the image. -/
def productWidth (naturalWidth naturalHeight : ℚ) : ℚ :=
  productHeight * (naturalWidth / naturalHeight)

/-- Horizontal position of the overlay: centered, then shifted left by 18
percent of the story width. -/
def productX (naturalWidth naturalHeight : ℚ) : ℚ :=
  ((STORY_WIDTH : ℚ) - productWidth naturalWidth naturalHeight) / 2 -
    (STORY_WIDTH : ℚ) * 0.18

/-- Vertical position of the overlay: its top edge sits half its height above
the split line. -/
def productY : ℚ := (halfHeight : ℚ) - productHeight / 2

/-- C8: whenever the branding image has loaded every composited frame draws
it, with height 18 percent of the story height, width preserving the natural
aspect ratio, top edge at halfHeight minus half the height so that it is
vertically centered on the split line, and horizontal center offset 18
percent of the story width to the left of the canvas center. -/
theorem overlay_geometry (naturalWidth naturalHeight : ℚ) (facing : Facing) :
    productHeight = 0.18 * (STORY_HEIGHT : ℚ) ∧
    productWidth naturalWidth naturalHeight / productHeight =
      naturalWidth / naturalHeight ∧
    productY = (halfHeight : ℚ) - productHeight / 2 ∧
    productY + productHeight / 2 = (halfHeight : ℚ) ∧
    productX naturalWidth naturalHeight +
        productWidth naturalWidth naturalHeight / 2 =
      (STORY_WIDTH : ℚ) / 2 - 0.18 * (STORY_WIDTH : ℚ) ∧
    FrameStep.overlay ∈ frameSteps true facing true := by
  have hph : productHeight ≠ 0 := by norm_num [productHeight, STORY_HEIGHT]
  refine ⟨by rw [productHeight, mul_comm], ?_, rfl, ?_, ?_, ?_⟩
  · rw [productWidth, mul_comm, mul_div_assoc, div_self hph, mul_one]
  · rw [productY]; ring
  · rw [productX]; ring
  · cases facing <;> decide

/-- The kind of a media track. -/
inductive TrackKind
  | audio
  | video
deriving DecidableEq, Repr

/-- A media track, identified by its kind and an id. -/
structure MediaTrack where
  kind : TrackKind
  id : Nat
deriving DecidableEq, Repr

/-- getAudioTracks on a stream: the audio tracks, in order. -/
def getAudioTracks (tracks : List MediaTrack) : List MediaTrack :=
  tracks.filter (fun t => t.kind = TrackKind.audio)

/-- A captured canvas stream: the frame rate requested from captureStream and
the tracks the stream carries. -/
structure CapturedStream where
  fps : Nat
  tracks : List MediaTrack
deriving DecidableEq, Repr

/-- canvas.captureStream fps: a stream holding the canvas video track. -/
def captureStream (fps : Nat) (canvasTrack : MediaTrack) : CapturedStream :=
  { fps := fps, tracks := [canvasTrack] }

/-- canvasStream.addTrack: append one track to the stream. -/
def addTrack (s : CapturedStream) (t : MediaTrack) : CapturedStream :=
  { s with tracks := s.tracks ++ [t] }

/-- The stream startRecording hands to the MediaRecorder: the canvas captured
at 30 frames per second, then each audio track of the camera stream added in
order by the forEach addTrack loop. -/
def buildRecordingStream (canvasTrack : MediaTrack)
    (cameraTracks : List MediaTrack) : CapturedStream :=
  let canvasStream := captureStream 30 canvasTrack
  (getAudioTracks cameraTracks).foldl addTrack canvasStream

/-- Folding addTrack over a list appends the list to the tracks. -/
theorem foldl_addTrack (l : List MediaTrack) (s : CapturedStream) :
    l.foldl addTrack s = { s with tracks := s.tracks ++ l } := by
  induction l generalizing s with
  | nil => simp
  | cons t rest ih => simp [addTrack, ih]

/-- C4: the recorded stream is the composited canvas captured at 30 frames
per second together with every audio track of the live camera stream: its
frame rate is 30, its track list is the canvas track followed by exactly the
audio tracks of the camera stream, and every audio track of the camera stream
is in it. -/
theorem recordingStream_canvas30_plus_audio (canvasTrack : MediaTrack)
    (cameraTracks : List MediaTrack) :
    (buildRecordingStream canvasTrack cameraTracks).fps = 30 ∧
    (buildRecordingStream canvasTrack cameraTracks).tracks =
      canvasTrack :: getAudioTracks cameraTracks ∧
    ∀ t ∈ cameraTracks, t.kind = TrackKind.audio →
      t ∈ (buildRecordingStream canvasTrack cameraTracks).tracks := by
  have hfold :
      buildRecordingStream canvasTrack cameraTracks =
        { fps := 30,
          tracks := canvasTrack :: getAudioTracks cameraTracks } := by
    rw [buildRecordingStream, captureStream, foldl_addTrack]
    simp
  refine ⟨by rw [hfold], by rw [hfold], ?_⟩
  intro t ht hk
  rw [hfold]
  simp only [List.mem_cons]
  right
  rw [getAudioTracks]
  exact List.mem_filter.mpr ⟨ht, by simp [hk]⟩

/-- Witness for C4 on a camera stream with one audio and one video track. -/
theorem recordingStream_canvas30_plus_audio_witness :
    (buildRecordingStream ⟨TrackKind.video, 0⟩
        [⟨TrackKind.audio, 1⟩, ⟨TrackKind.video, 2⟩]).fps = 30 ∧
    (buildRecordingStream ⟨TrackKind.video, 0⟩
        [⟨TrackKind.audio, 1⟩, ⟨TrackKind.video, 2⟩]).tracks =
      ⟨TrackKind.video, 0⟩ ::
        getAudioTracks [⟨TrackKind.audio, 1⟩, ⟨TrackKind.video, 2⟩] ∧
    (⟨TrackKind.audio, 1⟩ : MediaTrack) ∈
      (buildRecordingStream ⟨TrackKind.video, 0⟩
        [⟨TrackKind.audio, 1⟩, ⟨TrackKind.video, 2⟩]).tracks :=
  ⟨(recordingStream_canvas30_plus_audio ⟨TrackKind.video, 0⟩
      [⟨TrackKind.audio, 1⟩, ⟨TrackKind.video, 2⟩]).1,
   (recordingStream_canvas30_plus_audio ⟨TrackKind.video, 0⟩
      [⟨TrackKind.audio, 1⟩, ⟨TrackKind.video, 2⟩]).2.1,
   (recordingStream_canvas30_plus_audio ⟨TrackKind.video, 0⟩
      [⟨TrackKind.audio, 1⟩, ⟨TrackKind.video, 2⟩]).2.2
     ⟨TrackKind.audio, 1⟩ (by decide) rfl⟩

/-- A blob: a MIME type and its byte content. -/
structure Blob where
  mime : String
  content : List Nat
deriving DecidableEq, Repr

/-- The recording states of the component (type RecordingState). -/
inductive RecordingState
  | idle
  | recording
  | preview
  | converting
deriving DecidableEq, Repr, Fintype

/-- The WebM blob the onstop handler builds from the recorded chunks:
new Blob(chunks, type video/webm). -/
def mkWebmBlob (chunks : List Blob) : Blob :=
  { mime := "video/webm", content := (chunks.map Blob.content).flatten }

/-- The onstop handler of the MediaRecorder: build the WebM blob from the
chunks, enter the converting state, try the MP4 conversion (which may fail,
for example because FFmpeg is not loaded), and on failure fall back to the
WebM blob; either way the state then becomes preview.  The result is the blob
the object URL and mp4BlobRef end up holding, together with the recording
states the handler sets, in order.  The external transcoder is abstracted by
the convert argument. -/
def onStopHandler (chunks : List Blob)
    (convert : Blob → Except String Blob) : Blob × List RecordingState :=
  let webmBlob := mkWebmBlob chunks
  match convert webmBlob with
  | Except.ok mp4Blob => (mp4Blob, [RecordingState.converting, RecordingState.preview])
  | Except.error _ => (webmBlob, [RecordingState.converting, RecordingState.preview])

/-- C5: whatever the chunks and whatever the converter does, the stop handler
ends in the preview state; when conversion fails, the resulting blob is
exactly the original WebM blob built from the chunks, and when it succeeds it
is the converted MP4 blob, so the user always reaches preview with some
blob. -/
theorem onStop_always_reaches_preview (chunks : List Blob)
    (convert : Blob → Except String Blob) :
    (onStopHandler chunks convert).2 =
      [RecordingState.converting, RecordingState.preview] ∧
    (∀ e, convert (mkWebmBlob chunks) = Except.error e →
      (onStopHandler chunks convert).1 = mkWebmBlob chunks) ∧
    (∀ mp4Blob, convert (mkWebmBlob chunks) = Except.ok mp4Blob →
      (onStopHandler chunks convert).1 = mp4Blob) := by
  refine ⟨?_, ?_, ?_⟩
  · rw [onStopHandler]
    cases convert (mkWebmBlob chunks) <;> rfl
  · intro e he
    rw [onStopHandler]
    rw [he]
  · intro mp4Blob hok
    rw [onStopHandler]
    rw [hok]

/-- Witness for C5 with one chunk and a converter that always fails. -/
theorem onStop_always_reaches_preview_witness :
    (onStopHandler [⟨"video/webm", [1, 2]⟩]
        (fun _ => Except.error "conversion failed")).2 =
      [RecordingState.converting, RecordingState.preview] ∧
    (onStopHandler [⟨"video/webm", [1, 2]⟩]
        (fun _ => Except.error "conversion failed")).1 =
      mkWebmBlob [⟨"video/webm", [1, 2]⟩] :=
  ⟨(onStop_always_reaches_preview [⟨"video/webm", [1, 2]⟩]
      (fun _ => Except.error "conversion failed")).1,
   (onStop_always_reaches_preview [⟨"video/webm", [1, 2]⟩]
      (fun _ => Except.error "conversion failed")).2.1 "conversion failed" rfl⟩

/-- What shareVideo ends up doing. -/
inductive ShareOutcome
  | noAction
  | sharedViaApi
  | fellBackToDownload
deriving DecidableEq, Repr

/-- The MP4 file shareVideo builds from the stored blob:
new File([blob], name, type video/mp4). -/
def mkShareFile (b : Blob) : Blob :=
  { mime := "video/mp4", content := b.content }

/-- The decision logic of shareVideo: without a stored blob it returns
immediately; otherwise it shares through the Web Share API when
navigator.share exists and navigator.canShare accepts the MP4 file, and falls
back to downloadVideo in every other case.  Whether the share sheet is then
confirmed or cancelled by the user is outside the decision. -/
def shareVideoOutcome (mp4Blob : Option Blob) (hasShareApi : Bool)
    (canShare : Blob → Bool) : ShareOutcome :=
  match mp4Blob with
  | Option.none => ShareOutcome.noAction
  | Option.some b =>
      if hasShareApi && canShare (mkShareFile b) then ShareOutcome.sharedViaApi
      else ShareOutcome.fellBackToDownload

/-- C7: sharing uses the Web Share API exactly when navigator.share exists
and canShare accepts the MP4 file; in every other case with a stored blob,
shareVideo falls back to downloadVideo; with no stored blob it does
nothing. -/
theorem shareVideo_decision (b : Blob) (hasShareApi : Bool)
    (canShare : Blob → Bool) :
    shareVideoOutcome Option.none hasShareApi canShare = ShareOutcome.noAction ∧
    (shareVideoOutcome (Option.some b) hasShareApi canShare =
        ShareOutcome.sharedViaApi ↔
      hasShareApi = true ∧ canShare (mkShareFile b) = true) ∧
    (shareVideoOutcome (Option.some b) hasShareApi canShare =
        ShareOutcome.fellBackToDownload ↔
      ¬(hasShareApi = true ∧ canShare (mkShareFile b) = true)) := by
  refine ⟨rfl, ?_, ?_⟩ <;>
    rw [shareVideoOutcome] <;>
    cases hasShareApi <;>
    cases hcs : canShare (mkShareFile b) <;>
    simp [hcs]

/-- Witness for C7 with a concrete blob, the share API present, and a
canShare that accepts everything: the outcome is a Web Share API share. -/
theorem shareVideo_decision_witness :
    shareVideoOutcome Option.none true (fun _ => true) = ShareOutcome.noAction ∧
    shareVideoOutcome (Option.some ⟨"video/mp4", [7]⟩) true (fun _ => true) =
      ShareOutcome.sharedViaApi :=
  ⟨(shareVideo_decision ⟨"video/mp4", [7]⟩ true (fun _ => true)).1,
   (shareVideo_decision ⟨"video/mp4", [7]⟩ true (fun _ => true)).2.1.mpr
     ⟨rfl, rfl⟩⟩

/-- The component state relevant to the recording state machine: the
RecordingState value, whether the MediaRecorder is active (state not
inactive), whether stop was called so that an onstop callback is pending,
whether streamRef holds a stream, and whether the camera is ready (the record
button is disabled until it is). -/
structure ComponentState where
  recState : RecordingState
  recorderActive : Bool
  stopRequested : Bool
  hasStream : Bool
  cameraReady : Bool
deriving DecidableEq, Repr, Fintype

/-- The events that can reach the component: the user pressing the record,
stop, reset or switch-camera controls, and the recorder firing its onstop
callback (carrying whether the MP4 conversion succeeds). -/
inductive UVEvent
  | pressRecord
  | pressStop
  | recorderStops (convertOk : Bool)
  | pressReset
  | pressSwitch
deriving DecidableEq, Repr, Fintype

/-- One step of the component: the new component state and the list of
RecordingState values entered during the step, in order.  Guards are those of
the code and of the JSX that renders the controls: the record button exists
only in the idle state and is disabled until the camera is ready, and
startRecording returns early without a stream; stopRecording is a no-op
unless the recorder is active; the onstop handler (which sets converting and
then, after the conversion attempt or its fallback, preview) runs only after
stop was called; the reset buttons exist only on the preview screen; and
switching the camera never touches the recording state. -/
def handleEvent (s : ComponentState) (e : UVEvent) :
    ComponentState × List RecordingState :=
  match e with
  | UVEvent.pressRecord =>
      if s.recState = RecordingState.idle ∧ s.cameraReady = true then
        if s.hasStream = true then
          ({ s with recState := RecordingState.recording, recorderActive := true },
           [RecordingState.recording])
        else (s, [])
      else (s, [])
  | UVEvent.pressStop =>
      if s.recState ≠ RecordingState.idle ∧ s.recState ≠ RecordingState.preview ∧
          s.recorderActive = true then
        ({ s with recorderActive := false, stopRequested := true }, [])
      else (s, [])
  | UVEvent.recorderStops _ =>
      if s.stopRequested = true then
        ({ s with stopRequested := false, recState := RecordingState.preview },
         [RecordingState.converting, RecordingState.preview])
      else (s, [])
  | UVEvent.pressReset =>
      if s.recState = RecordingState.preview then
        ({ s with recState := RecordingState.idle }, [RecordingState.idle])
      else (s, [])
  | UVEvent.pressSwitch => (s, [])

/-- Invariant of the component: the recorder is active, or an onstop callback
is pending, only while the displayed state is recording, and never both at
once (stopRecording clears the active recorder when it requests the stop). -/
def StateInv (s : ComponentState) : Prop :=
  (s.recorderActive = true → s.recState = RecordingState.recording) ∧
  (s.stopRequested = true → s.recState = RecordingState.recording) ∧
  (s.recorderActive = true → s.stopRequested = false)

instance (s : ComponentState) : Decidable (StateInv s) :=
  inferInstanceAs (Decidable
    ((s.recorderActive = true → s.recState = RecordingState.recording) ∧
     (s.stopRequested = true → s.recState = RecordingState.recording) ∧
     (s.recorderActive = true → s.stopRequested = false)))

/-- The transitions the claim allows: the cycle idle to recording to
converting to preview and back to idle. -/
def allowedEdge : RecordingState → RecordingState → Bool
  | RecordingState.idle, RecordingState.recording => true
  | RecordingState.recording, RecordingState.converting => true
  | RecordingState.converting, RecordingState.preview => true
  | RecordingState.preview, RecordingState.idle => true
  | _, _ => false

/-- The consecutive pairs of states along a trace that starts at a. -/
def chainEdges : RecordingState → List RecordingState →
    List (RecordingState × RecordingState)
  | _, [] => []
  | a, b :: rest => (a, b) :: chainEdges b rest

/-- C6: the recording state takes only the four values idle, recording,
preview and converting, and from any component state satisfying the
invariant, every state change any event produces follows the cycle
idle to recording (startRecording), recording to converting (the onstop
handler), converting to preview (after conversion succeeds or falls back)
and preview to idle (resetCamera); the invariant is preserved, so no
reachable step ever performs a transition outside this graph. -/
theorem recordingState_cycle (s : ComponentState) (e : UVEvent)
    (hInv : StateInv s) :
    (∀ st : RecordingState, st = RecordingState.idle ∨
      st = RecordingState.recording ∨ st = RecordingState.preview ∨
      st = RecordingState.converting) ∧
    (∀ p ∈ chainEdges s.recState (handleEvent s e).2,
      allowedEdge p.1 p.2 = true) ∧
    StateInv (handleEvent s e).1 := by
  revert hInv
  revert e
  revert s
  decide

/-- Witness for C6: from the initial idle state, pressing record produces
only the edge from idle to recording. -/
theorem recordingState_cycle_witness :
    StateInv ⟨RecordingState.idle, false, false, true, true⟩ ∧
    ∀ p ∈ chainEdges RecordingState.idle
        (handleEvent ⟨RecordingState.idle, false, false, true, true⟩
          UVEvent.pressRecord).2,
      allowedEdge p.1 p.2 = true :=
  ⟨by decide,
   (recordingState_cycle ⟨RecordingState.idle, false, false, true, true⟩
      UVEvent.pressRecord (by decide)).2.1⟩

end UVCam
